import Mathlib

/-!
Verification of the distance-tracker proximity-detection engine
(location-demo/distance-tracker/src/main.rs).

The Rust program keeps a shared HashMap from vehicle id to the latest
VehicleInfo, ingests JSON position reports into it, and on a periodic tick
detaches a snapshot, computes pairwise haversine distances, classifies each
pair against a min-distance band and a max-distance band, publishes one JSON
alert per crossing, and merges the snapshot back into the shared table.

The embedding below models:
- f32 threshold/classification arithmetic over ℚ (the scale constants 1.5 and
  0.75 are exactly representable, and only order comparisons matter);
- the haversine distance over ℝ with real sin/cos/sqrt/arcsin (the spec states its
  properties up to floating-point tolerance);
- the HashMap as an association list with unique keys, insert replacing the
  entry at an existing key (iteration order of a HashMap is unspecified, and
  no claim depends on it);
- serde_json serialization at the JSON-value level: the derived serializer
  for a fieldless enum emits the variant name as a string, and a struct
  serializes as an object with its fields in declaration order.
-/

namespace DistanceTracker

/-- `struct Position { lat: f32, lng: f32 }`, coordinate type abstracted. -/
structure Position (α : Type) where
  lat : α
  lng : α
  deriving DecidableEq

/-- `struct VehicleInfo { position, speed, color, id, kind }`. -/
structure VehicleInfo (α : Type) where
  position : Position α
  speed : α
  color : String
  id : String
  kind : String
  deriving DecidableEq

/-- `enum AlertKind { AlertMin = 0, DangerMin = 1, AlertMax = 2, DangerMax = 3 }`. -/
inductive AlertKind where
  | AlertMin
  | DangerMin
  | AlertMax
  | DangerMax
  deriving DecidableEq

/-- The explicit discriminants declared in the Rust enum. -/
def AlertKind.ordinal : AlertKind → ℕ
  | .AlertMin => 0
  | .DangerMin => 1
  | .AlertMax => 2
  | .DangerMax => 3

/-- `struct DistanceAlert { ida, idb, distance, kind }`. -/
structure DistanceAlert (α : Type) where
  ida : String
  idb : String
  distance : α
  kind : AlertKind
  deriving DecidableEq

/-- `const EARTH_RADIUS: f32 = 6371.0` (kilometres). -/
def EARTH_RADIUS : ℝ := 6371

/-- `const MIN_DISTANCE_SCALE: f32 = 1.5` (exact in binary floating point). -/
def MIN_DISTANCE_SCALE : ℚ := 3 / 2

/-- `const MAX_DISTANCE_SCALE: f32 = 0.75` (exact in binary floating point). -/
def MAX_DISTANCE_SCALE : ℚ := 3 / 4

/-- `f32::to_radians`: multiply by π / 180. -/
noncomputable def toRadians (x : ℝ) : ℝ := x * (Real.pi / 180)

/-- `Position::distance_haverside`: haversine great-circle distance in metres,
line for line from the source. -/
noncomputable def Position.distance_haverside (self other : Position ℝ) : ℝ :=
  let c_lat := toRadians self.lat
  let o_lat := toRadians other.lat
  let delta_lat := toRadians (other.lat - self.lat)
  let delta_lng := toRadians (other.lng - self.lng)
  let central_angle_inner := Real.sin (delta_lat / 2) ^ 2
    + Real.cos c_lat * Real.cos o_lat * Real.sin (delta_lng / 2) ^ 2
  let central_angle := 2 * Real.arcsin (Real.sqrt central_angle_inner)
  EARTH_RADIUS * central_angle * 1000

/-- The minimum-distance band of the evaluator, exactly as in the source:
`if distance <= min_distance` publish `DangerMin`,
`else if distance <= min_distance * MIN_DISTANCE_SCALE` publish `AlertMin`,
else nothing from this band. -/
def classifyMin (min_distance distance : ℚ) : Option AlertKind :=
  if distance ≤ min_distance then some AlertKind.DangerMin
  else if distance ≤ min_distance * MIN_DISTANCE_SCALE then some AlertKind.AlertMin
  else none

/-- The maximum-distance band of the evaluator, exactly as in the source:
`if distance > max_distance` publish an alert with `kind: AlertKind::DangerMin`,
`else if distance > max_distance * MAX_DISTANCE_SCALE` publish an alert with
`kind: AlertKind::DangerMax`, else nothing from this band. (These are the
kinds the source constructs; `AlertKind::AlertMax` never appears in it.) -/
def classifyMax (max_distance distance : ℚ) : Option AlertKind :=
  if distance > max_distance then some AlertKind.DangerMin
  else if distance > max_distance * MAX_DISTANCE_SCALE then some AlertKind.DangerMax
  else none

/-- JSON values, for the wire format of alerts. -/
inductive Json where
  | str : String → Json
  | num : ℚ → Json
  | obj : List (String × Json) → Json

/-- First-match lookup in an association list. -/
def alookup {β : Type} : List (String × β) → String → Option β
  | [], _ => none
  | e :: rest, k => if e.1 = k then some e.2 else alookup rest k

/-- Field lookup in a JSON object (`none` on non-objects). -/
def Json.getField : Json → String → Option Json
  | .obj fields, k => alookup fields k
  | _, _ => none

/-- The serde derived serializer for a fieldless enum variant: the variant name
as a string (the declared discriminants play no role in `#[derive(Serialize)]`). -/
def AlertKind.serdeName : AlertKind → String
  | .AlertMin => "AlertMin"
  | .DangerMin => "DangerMin"
  | .AlertMax => "AlertMax"
  | .DangerMax => "DangerMax"

/-- `serde_json::to_vec(&DistanceAlert)` at the JSON-value level: an object
with the fields of the struct in declaration order. -/
def DistanceAlert.toJson (da : DistanceAlert ℚ) : Json :=
  Json.obj [("ida", Json.str da.ida), ("idb", Json.str da.idb),
    ("distance", Json.num da.distance), ("kind", Json.str da.kind.serdeName)]

/-- The shared `HashMap<String, VehicleInfo>`, modelled as an association list
whose keys are unique (iteration order of a HashMap is unspecified, so no
claim may depend on the order of entries). -/
abbrev Table (α : Type) := List (String × VehicleInfo α)

/-- The keys of the table. -/
def tableKeys {α : Type} (m : Table α) : List String := m.map Prod.fst

/-- `HashMap::insert(k, v)`: replace the entry at `k` if present, else add it. -/
def tableInsert {α : Type} (k : String) (v : VehicleInfo α) : Table α → Table α
  | [] => [(k, v)]
  | e :: rest => if e.1 = k then (k, v) :: rest else e :: tableInsert k v rest

/-- `map.get(&k)` on the model: first-match association lookup. -/
def tableGet {α : Type} (m : Table α) (k : String) : Option (VehicleInfo α) :=
  alookup m k

/-- The merge at the end of a tick: `for (id, vi) in cmap.iter() { map.insert(id, vi) }`
— every entry of the shared table is inserted into the detached snapshot, then
the result is installed as the new shared table. -/
def tableMerge {α : Type} (snapshot shared : Table α) : Table α :=
  shared.foldl (fun acc e => tableInsert e.1 e.2 acc) snapshot

/-- One iteration of the ingest loop after the transport handed over a payload:
`match serde_json::from_slice::<VehicleInfo>(..)` — on `Ok(vi)` insert at
`vi.id`, on `Err(e)` only print and leave the table alone. -/
def ingestStep {α : Type} (m : Table α) (msg : Except String (VehicleInfo α)) : Table α :=
  match msg with
  | Except.ok vi => tableInsert vi.id vi m
  | Except.error _ => m

/-- The ingest loop run over a finite prefix of the inbound stream, each
message already decoded to `Ok`/`Err` as the `match` in the source sees it. -/
def ingestAll {α : Type} (m : Table α) (msgs : List (Except String (VehicleInfo α))) : Table α :=
  msgs.foldl ingestStep m

/-- A sequence of successfully decoded reports applied in order. -/
def ingestReports {α : Type} (m : Table α) (vis : List (VehicleInfo α)) : Table α :=
  vis.foldl (fun acc vi => tableInsert vi.id vi acc) m

/-- The pairs visited by the nested loop of the evaluator: the outer loop walks the
snapshot with a counter `n` (incremented before the inner loop), and the inner
loop walks `map.iter().skip(n)` — so element `i` is paired with every element
after it, each unordered pair of positions exactly once. -/
def tickPairs {β : Type} : List β → List (β × β)
  | [] => []
  | x :: xs => xs.map (fun y => (x, y)) ++ tickPairs xs

/-- The alerts one visited pair contributes, exactly as in the source: skip
the pair if the two ids are equal, otherwise the min band publishes at most
one alert and the max band at most one, both carrying the computed distance
and the ids of the pair in iteration order. -/
def evalPair (dist : Position ℚ → Position ℚ → ℚ) (min_distance max_distance : ℚ)
    (p : (String × VehicleInfo ℚ) × (String × VehicleInfo ℚ)) : List (DistanceAlert ℚ) :=
  let d := dist p.1.2.position p.2.2.position
  if p.1.1 ≠ p.2.1 then
    ((classifyMin min_distance d).map
      (fun k => DistanceAlert.mk p.1.1 p.2.1 d k)).toList ++
    ((classifyMax max_distance d).map
      (fun k => DistanceAlert.mk p.1.1 p.2.1 d k)).toList
  else []

/-- All alerts published during one evaluator tick over a detached snapshot,
with the distance function abstracted (the source uses the haversine). -/
def tickAlerts (dist : Position ℚ → Position ℚ → ℚ) (min_distance max_distance : ℚ)
    (snap : Table ℚ) : List (DistanceAlert ℚ) :=
  (tickPairs snap).flatMap (evalPair dist min_distance max_distance)

/-- Every entry of the table is keyed by its own id. -/
def KeyedBySelf {α : Type} (m : Table α) : Prop := ∀ e ∈ m, e.1 = e.2.id

/-- Sample report: vehicle id `a` at the origin. -/
def viA : VehicleInfo ℚ :=
  { position := { lat := 0, lng := 0 }, speed := 0, color := "red", id := "a", kind := "car" }

/-- Sample report: vehicle id `b`. -/
def viB : VehicleInfo ℚ :=
  { position := { lat := 1, lng := 0 }, speed := 0, color := "blue", id := "b", kind := "car" }

/-- Sample report: vehicle id `c`. -/
def viC : VehicleInfo ℚ :=
  { position := { lat := 0, lng := 1 }, speed := 0, color := "green", id := "c", kind := "car" }

/-- Sample report: a second, different report for vehicle id `a`. -/
def viA2 : VehicleInfo ℚ :=
  { position := { lat := 2, lng := 2 }, speed := 5, color := "red", id := "a", kind := "car" }

/-- A sample snapshot of three entities. -/
def snapABC : Table ℚ := [("a", viA), ("b", viB), ("c", viC)]

/-- The number of occurrences of `a` in a list (used to state that the
evaluator visits each pair exactly once). -/
def countOcc {γ : Type} [DecidableEq γ] (a : γ) : List γ → ℕ
  | [] => 0
  | x :: xs => (if x = a then 1 else 0) + countOcc a xs

section TableLemmas

variable {α : Type}

theorem alookup_tableInsert_self (k : String) (v : VehicleInfo α) (m : Table α) :
    alookup (tableInsert k v m) k = some v := by
  induction m with
  | nil => simp [tableInsert, alookup]
  | cons e rest ih =>
    by_cases he : e.1 = k
    · simp [tableInsert, he, alookup]
    · simp [tableInsert, he, alookup, ih]

theorem alookup_tableInsert_ne {k k' : String} (h : k ≠ k') (v : VehicleInfo α)
    (m : Table α) : alookup (tableInsert k v m) k' = alookup m k' := by
  induction m with
  | nil => simp [tableInsert, alookup, h]
  | cons e rest ih =>
    by_cases he : e.1 = k
    · simp [tableInsert, he, alookup, h]
    · simp [tableInsert, he, alookup, ih]

theorem tableKeys_nil : tableKeys ([] : Table α) = [] := rfl

theorem tableKeys_cons (e : String × VehicleInfo α) (m : Table α) :
    tableKeys (e :: m) = e.1 :: tableKeys m := rfl

theorem mem_tableKeys_insert {k k' : String} {v : VehicleInfo α} {m : Table α} :
    k' ∈ tableKeys (tableInsert k v m) ↔ k' = k ∨ k' ∈ tableKeys m := by
  induction m with
  | nil => simp [tableInsert, tableKeys_cons, tableKeys_nil]
  | cons e rest ih =>
    by_cases he : e.1 = k
    · subst he
      simp only [tableInsert, if_pos, tableKeys_cons, List.mem_cons]
      tauto
    · simp only [tableInsert, if_neg he, tableKeys_cons, List.mem_cons, ih]
      tauto

theorem tableKeys_nodup_insert {k : String} {v : VehicleInfo α} {m : Table α}
    (h : (tableKeys m).Nodup) : (tableKeys (tableInsert k v m)).Nodup := by
  induction m with
  | nil => simp [tableInsert, tableKeys]
  | cons e rest ih =>
    simp only [tableKeys, List.map_cons, List.nodup_cons] at h
    by_cases he : e.1 = k
    · simp only [tableInsert, he, if_true, tableKeys, List.map_cons, List.nodup_cons]
      exact ⟨he ▸ h.1, h.2⟩
    · simp only [tableInsert, he, if_false, tableKeys, List.map_cons, List.nodup_cons]
      refine ⟨fun hmem => ?_, ih h.2⟩
      rcases mem_tableKeys_insert.mp hmem with rfl | hmem2
      · exact he rfl
      · exact h.1 hmem2

theorem length_tableInsert_of_mem {k : String} {v : VehicleInfo α} {m : Table α}
    (h : k ∈ tableKeys m) : (tableInsert k v m).length = m.length := by
  induction m with
  | nil => simp [tableKeys] at h
  | cons e rest ih =>
    by_cases he : e.1 = k
    · simp [tableInsert, he]
    · have h2 : k ∈ tableKeys rest := by
        rw [tableKeys_cons] at h
        rcases List.mem_cons.mp h with h3 | h3
        · exact absurd h3.symm he
        · exact h3
      simp [tableInsert, he, ih h2]

theorem length_tableInsert_of_not_mem {k : String} {v : VehicleInfo α} {m : Table α}
    (h : k ∉ tableKeys m) : (tableInsert k v m).length = m.length + 1 := by
  induction m with
  | nil => simp [tableInsert]
  | cons e rest ih =>
    simp only [tableKeys, List.map_cons, List.mem_cons, not_or] at h
    have he : ¬ e.1 = k := fun h2 => h.1 h2.symm
    simp [tableInsert, he, ih h.2]

theorem alookup_eq_none_of_not_mem {k : String} {m : Table α}
    (h : k ∉ tableKeys m) : alookup m k = none := by
  induction m with
  | nil => rfl
  | cons e rest ih =>
    simp only [tableKeys, List.map_cons, List.mem_cons, not_or] at h
    have he : ¬ e.1 = k := fun h2 => h.1 h2.symm
    simp [alookup, he, ih h.2]

theorem tableMerge_nil (snap : Table α) : tableMerge snap [] = snap := rfl

theorem tableMerge_cons (snap : Table α) (e : String × VehicleInfo α)
    (rest : Table α) : tableMerge snap (e :: rest) = tableMerge (tableInsert e.1 e.2 snap) rest :=
  rfl

theorem alookup_tableMerge (snap shared : Table α) (h : (tableKeys shared).Nodup)
    (k : String) :
    (∀ v, alookup shared k = some v → alookup (tableMerge snap shared) k = some v) ∧
    (alookup shared k = none → alookup (tableMerge snap shared) k = alookup snap k) := by
  induction shared generalizing snap with
  | nil =>
    exact ⟨fun v hv => Option.noConfusion hv, fun _ => rfl⟩
  | cons e rest ih =>
    simp only [tableKeys, List.map_cons, List.nodup_cons] at h
    rw [tableMerge_cons]
    constructor
    · intro v hv
      by_cases he : e.1 = k
      · have hrest : alookup rest k = none :=
          alookup_eq_none_of_not_mem (he ▸ h.1)
        have hv2 : v = e.2 := by
          simp [alookup, he] at hv
          exact hv.symm
        rw [(ih (tableInsert e.1 e.2 snap) h.2).2 hrest, hv2, ← he,
          alookup_tableInsert_self]
      · have hv2 : alookup rest k = some v := by simpa [alookup, he] using hv
        exact (ih (tableInsert e.1 e.2 snap) h.2).1 v hv2
    · intro hnone
      have he : ¬ e.1 = k := by
        intro he
        simp [alookup, he] at hnone
      have hrest : alookup rest k = none := by simpa [alookup, he] using hnone
      rw [(ih (tableInsert e.1 e.2 snap) h.2).2 hrest, alookup_tableInsert_ne he]

theorem mem_tableInsert {k : String} {v : VehicleInfo α} {m : Table α}
    {e : String × VehicleInfo α} (he : e ∈ tableInsert k v m) : e = (k, v) ∨ e ∈ m := by
  induction m with
  | nil =>
    simp only [tableInsert] at he
    exact Or.inl (List.mem_singleton.mp he)
  | cons x rest ih =>
    by_cases hx : x.1 = k
    · simp only [tableInsert, if_pos hx] at he
      rcases List.mem_cons.mp he with rfl | hm
      · exact Or.inl rfl
      · exact Or.inr (List.mem_cons_of_mem _ hm)
    · simp only [tableInsert, if_neg hx] at he
      rcases List.mem_cons.mp he with rfl | hm
      · exact Or.inr (List.mem_cons_self _ _)
      · rcases ih hm with h | h
        · exact Or.inl h
        · exact Or.inr (List.mem_cons_of_mem _ h)

theorem keyedBySelf_nil : KeyedBySelf ([] : Table α) :=
  fun e he => absurd he (List.not_mem_nil e)

theorem keyedBySelf_insert {m : Table α} (hm : KeyedBySelf m) (v : VehicleInfo α) :
    KeyedBySelf (tableInsert v.id v m) := by
  intro e he
  rcases mem_tableInsert he with rfl | hmem
  · rfl
  · exact hm e hmem

theorem keyedBySelf_merge (shared : Table α) :
    ∀ (snap : Table α), KeyedBySelf snap → KeyedBySelf shared →
      KeyedBySelf (tableMerge snap shared) := by
  induction shared with
  | nil => exact fun snap hs _ => hs
  | cons e rest ih =>
    intro snap hs hc
    rw [tableMerge_cons]
    have he : e.1 = e.2.id := hc e (List.mem_cons_self _ _)
    refine ih _ ?_ (fun e2 he2 => hc e2 (List.mem_cons_of_mem _ he2))
    rw [he]
    exact keyedBySelf_insert hs e.2

theorem ingestAll_eq_ingestReports (msgs : List (Except String (VehicleInfo α))) :
    ∀ m : Table α, ingestAll m msgs = ingestReports m (msgs.filterMap Except.toOption) := by
  induction msgs with
  | nil => exact fun _ => rfl
  | cons msg rest ih =>
    intro m
    cases msg with
    | ok vi =>
      show ingestAll (tableInsert vi.id vi m) rest = _
      rw [ih]
      rfl
    | error e =>
      show ingestAll m rest = _
      rw [ih]
      rfl

theorem tableKeys_nodup_ingestReports (vis : List (VehicleInfo α)) :
    ∀ m : Table α, (tableKeys m).Nodup → (tableKeys (ingestReports m vis)).Nodup := by
  induction vis with
  | nil => exact fun _ hm => hm
  | cons v rest ih => exact fun m hm => ih _ (tableKeys_nodup_insert hm)

theorem mem_tableKeys_ingestReports (vis : List (VehicleInfo α)) :
    ∀ (m : Table α) (k : String),
      k ∈ tableKeys (ingestReports m vis) ↔
        k ∈ tableKeys m ∨ k ∈ vis.map VehicleInfo.id := by
  induction vis with
  | nil => intro m k; simp [ingestReports]
  | cons v rest ih =>
    intro m k
    show k ∈ tableKeys (ingestReports (tableInsert v.id v m) rest) ↔ _
    rw [ih]
    simp only [mem_tableKeys_insert, List.map_cons, List.mem_cons]
    tauto

theorem length_ingestReports_dedup (vis : List (VehicleInfo α)) :
    (ingestReports ([] : Table α) vis).length = (vis.map VehicleInfo.id).dedup.length := by
  have h1 : (tableKeys (ingestReports ([] : Table α) vis)).Nodup :=
    tableKeys_nodup_ingestReports vis [] (by simp [tableKeys])
  have h2 : ∀ k, k ∈ tableKeys (ingestReports ([] : Table α) vis) ↔
      k ∈ (vis.map VehicleInfo.id).dedup := by
    intro k
    rw [mem_tableKeys_ingestReports, List.mem_dedup]
    simp [tableKeys]
  have h3 := (List.perm_ext_iff_of_nodup h1 (List.nodup_dedup _)).mpr h2
  simpa [tableKeys] using h3.length_eq

end TableLemmas

/-- C1: the maximum-distance band of the source does not produce the categories the
spec states. At `max_distance = 1000`, a distance of `2000 > max_distance`
yields an alert of kind `DangerMin` (the spec says `DangerMax`), a distance of
`800 > max_distance * 0.75` yields kind `DangerMax` (the spec says `AlertMax`),
and only the structure of the band (no alert at `500`) matches. -/
theorem maxBand_kinds_diverge :
    classifyMax 1000 2000 = some AlertKind.DangerMin ∧
    classifyMax 1000 800 = some AlertKind.DangerMax ∧
    classifyMax 1000 500 = none ∧
    AlertKind.DangerMin ≠ AlertKind.DangerMax ∧
    AlertKind.DangerMax ≠ AlertKind.AlertMax := by
  refine ⟨?_, ?_, ?_, by decide, by decide⟩ <;>
    norm_num [classifyMax, MAX_DISTANCE_SCALE]

/-- C2 (counterexample): the serialized `kind` field of a concrete alert is
the variant name string `"DangerMin"`, not the ordinal tag `1` declared for
`DangerMin` in the enum — the derived serializer ignores the discriminants. -/
theorem alert_kind_not_ordinal :
    (DistanceAlert.toJson
        { ida := "a", idb := "b", distance := 0, kind := AlertKind.DangerMin }).getField "kind"
      = some (Json.str "DangerMin") ∧
    Json.str "DangerMin" ≠ Json.num (AlertKind.ordinal AlertKind.DangerMin) :=
  ⟨rfl, fun h => Json.noConfusion h⟩

/-- C2 (amended): every published alert serializes as a JSON object with
exactly the fields `ida`, `idb`, `distance`, `kind` in declaration order,
where `kind` is the name string of the variant drawn from the closed four-element
set of `AlertKind` — not its ordinal tag. -/
theorem alert_wire_format (da : DistanceAlert ℚ) :
    ∃ fields : List (String × Json),
      da.toJson = Json.obj fields ∧
      fields.map Prod.fst = ["ida", "idb", "distance", "kind"] ∧
      alookup fields "ida" = some (Json.str da.ida) ∧
      alookup fields "idb" = some (Json.str da.idb) ∧
      alookup fields "distance" = some (Json.num da.distance) ∧
      alookup fields "kind" = some (Json.str da.kind.serdeName) ∧
      da.kind.serdeName ∈ ["AlertMin", "DangerMin", "AlertMax", "DangerMax"] := by
  refine ⟨_, rfl, rfl, by simp [alookup], by simp [alookup], by simp [alookup],
    by simp [alookup], ?_⟩
  cases da.kind <;> simp [AlertKind.serdeName]

/-- C3 (counterexample): with `min_distance = 0` the boundary distance
`min_distance * 1.5 = 0` falls in the first branch and yields `DangerMin`,
not the `AlertMin` the claim asserts unconditionally for that boundary. -/
theorem minBand_boundary_fails_at_zero :
    (0 : ℚ) * MIN_DISTANCE_SCALE = 0 ∧
    classifyMin 0 (0 * MIN_DISTANCE_SCALE) = some AlertKind.DangerMin ∧
    some AlertKind.DangerMin ≠ some AlertKind.AlertMin := by
  refine ⟨by norm_num [MIN_DISTANCE_SCALE], by norm_num [classifyMin, MIN_DISTANCE_SCALE],
    by decide⟩

/-- C3 (amended): the minimum-distance band classifies by the inclusive
chain `distance ≤ min_distance → DangerMin`, else
`distance ≤ min_distance * 1.5 → AlertMin`, else no alert; a distance exactly
equal to `min_distance` always yields `DangerMin`, and — whenever
`0 < min_distance`, so that the two boundaries are distinct — a distance
exactly equal to `min_distance * 1.5` yields `AlertMin`. -/
theorem minBand_classification (min_distance d : ℚ) :
    (d ≤ min_distance → classifyMin min_distance d = some AlertKind.DangerMin) ∧
    (min_distance < d → d ≤ min_distance * MIN_DISTANCE_SCALE →
      classifyMin min_distance d = some AlertKind.AlertMin) ∧
    (min_distance < d → min_distance * MIN_DISTANCE_SCALE < d →
      classifyMin min_distance d = none) ∧
    classifyMin min_distance min_distance = some AlertKind.DangerMin ∧
    (0 < min_distance →
      classifyMin min_distance (min_distance * MIN_DISTANCE_SCALE)
        = some AlertKind.AlertMin) := by
  refine ⟨fun h => ?_, fun h1 h2 => ?_, fun h1 h2 => ?_, ?_, fun h => ?_⟩
  · simp [classifyMin, h]
  · simp [classifyMin, not_le.mpr h1, h2]
  · simp [classifyMin, not_le.mpr h1, not_le.mpr h2]
  · simp [classifyMin]
  · have h1 : ¬ (min_distance * MIN_DISTANCE_SCALE ≤ min_distance) := by
      simp only [MIN_DISTANCE_SCALE, not_le]
      nlinarith
    simp [classifyMin, h1]

/-- C3 (witness): at `min_distance = 10`, a distance of `3` is `DangerMin`,
`12` is `AlertMin`, `20` produces no min-band alert, the boundary `10` is
`DangerMin`, and the boundary `10 * 1.5` is `AlertMin`. -/
theorem minBand_classification_witness :
    classifyMin 10 3 = some AlertKind.DangerMin ∧
    classifyMin 10 12 = some AlertKind.AlertMin ∧
    classifyMin 10 20 = none ∧
    classifyMin 10 10 = some AlertKind.DangerMin ∧
    classifyMin 10 (10 * MIN_DISTANCE_SCALE) = some AlertKind.AlertMin :=
  ⟨(minBand_classification 10 3).1 (by norm_num),
   (minBand_classification 10 12).2.1 (by norm_num) (by norm_num [MIN_DISTANCE_SCALE]),
   (minBand_classification 10 20).2.2.1 (by norm_num) (by norm_num [MIN_DISTANCE_SCALE]),
   (minBand_classification 10 10).2.2.2.1,
   (minBand_classification 10 10).2.2.2.2 (by norm_num)⟩

/-- C8: the haversine distance from any position to itself is `0`: both
coordinate deltas vanish, so the haversine term is `0`, and
`arcsin (sqrt 0) = 0`. -/
theorem distance_haverside_self (a : Position ℝ) : a.distance_haverside a = 0 := by
  simp [Position.distance_haverside, toRadians]

/-- C9: the haversine distance is symmetric in its two positions: negating
both coordinate deltas leaves their squared half-angle sines unchanged, and
the two cosine factors commute. -/
theorem distance_haverside_symm (a b : Position ℝ) :
    a.distance_haverside b = b.distance_haverside a := by
  have key : ∀ x y : ℝ,
      Real.sin (toRadians (x - y) / 2) ^ 2 = Real.sin (toRadians (y - x) / 2) ^ 2 := by
    intro x y
    have hx : toRadians (x - y) = -(toRadians (y - x)) := by
      simp only [toRadians]; ring
    rw [hx, neg_div, Real.sin_neg, neg_sq]
  simp only [Position.distance_haverside]
  rw [key b.lat a.lat, key b.lng a.lng,
    mul_comm (Real.cos (toRadians a.lat)) (Real.cos (toRadians b.lat))]

theorem two_mul_length_tickPairs {β : Type} (l : List β) :
    2 * (tickPairs l).length = l.length * (l.length - 1) := by
  induction l with
  | nil => rfl
  | cons x xs ih =>
    have h2 : xs.length * (xs.length - 1) + 2 * xs.length = (xs.length + 1) * xs.length := by
      cases hn : xs.length with
      | zero => simp
      | succ n =>
        simp only [Nat.succ_sub_one]
        ring
    simp only [tickPairs, List.length_append, List.length_map, List.length_cons,
      Nat.add_sub_cancel]
    omega

theorem length_tickPairs {β : Type} (l : List β) :
    (tickPairs l).length = l.length * (l.length - 1) / 2 := by
  have h := two_mul_length_tickPairs l
  omega

theorem mem_tickPairs_fst_snd {β : Type} {l : List β} {p : β × β}
    (hp : p ∈ tickPairs l) : p.1 ∈ l ∧ p.2 ∈ l := by
  induction l with
  | nil => simp [tickPairs] at hp
  | cons x xs ih =>
    simp only [tickPairs, List.mem_append, List.mem_map] at hp
    rcases hp with ⟨y, hy, rfl⟩ | hp
    · exact ⟨List.mem_cons_self _ _, List.mem_cons_of_mem _ hy⟩
    · exact ⟨List.mem_cons_of_mem _ (ih hp).1, List.mem_cons_of_mem _ (ih hp).2⟩

theorem map_ne_of_mem_tickPairs {β γ : Type} {f : β → γ} {l : List β}
    (hl : (l.map f).Nodup) {p : β × β} (hp : p ∈ tickPairs l) : f p.1 ≠ f p.2 := by
  induction l with
  | nil => simp [tickPairs] at hp
  | cons x xs ih =>
    simp only [List.map_cons, List.nodup_cons] at hl
    simp only [tickPairs, List.mem_append, List.mem_map] at hp
    rcases hp with ⟨y, hy, rfl⟩ | hp
    · intro hcontra
      exact hl.1 (by rw [hcontra]; exact List.mem_map_of_mem f hy)
    · exact ih hl.2 hp

theorem countOcc_append {γ : Type} [DecidableEq γ] (a : γ) (l1 l2 : List γ) :
    countOcc a (l1 ++ l2) = countOcc a l1 + countOcc a l2 := by
  induction l1 with
  | nil => simp [countOcc]
  | cons x xs ih =>
    show (if x = a then 1 else 0) + countOcc a (xs ++ l2)
      = ((if x = a then 1 else 0) + countOcc a xs) + countOcc a l2
    rw [ih]
    omega

theorem countOcc_eq_zero_of_not_mem {γ : Type} [DecidableEq γ] {a : γ} {l : List γ}
    (h : a ∉ l) : countOcc a l = 0 := by
  induction l with
  | nil => rfl
  | cons x xs ih =>
    simp only [List.mem_cons, not_or] at h
    have hx : ¬ x = a := fun h2 => h.1 h2.symm
    simp only [countOcc, if_neg hx, ih h.2]

theorem countOcc_eq_one_of_mem {γ : Type} [DecidableEq γ] {a : γ} {l : List γ}
    (hl : l.Nodup) (h : a ∈ l) : countOcc a l = 1 := by
  induction l with
  | nil => simp at h
  | cons x xs ih =>
    obtain ⟨hx, hxs⟩ := List.nodup_cons.mp hl
    by_cases hxa : x = a
    · subst hxa
      simp [countOcc, countOcc_eq_zero_of_not_mem hx]
    · have h2 : a ∈ xs := (List.mem_cons.mp h).resolve_left (fun h3 => hxa h3.symm)
      simp only [countOcc, if_neg hxa, ih hxs h2]

theorem countOcc_map_pair {β : Type} [DecidableEq β] (x u v : β) (xs : List β) :
    countOcc (u, v) (xs.map fun y => (x, y)) = if u = x then countOcc v xs else 0 := by
  induction xs with
  | nil => simp [countOcc]
  | cons z zs ih =>
    simp only [List.map_cons, countOcc, ih, Prod.mk.injEq]
    by_cases h1 : u = x
    · subst h1
      by_cases h2 : z = v
      · simp [h2]
      · simp [h2]
    · have hxu : ¬ (x = u ∧ z = v) := fun h => h1 h.1.symm
      simp [h1, hxu]

theorem count_tickPairs_once {β : Type} [DecidableEq β] {l : List β} (hl : l.Nodup)
    {a b : β} (ha : a ∈ l) (hb : b ∈ l) (hab : a ≠ b) :
    countOcc (a, b) (tickPairs l) + countOcc (b, a) (tickPairs l) = 1 := by
  induction l with
  | nil => simp at ha
  | cons x xs ih =>
    obtain ⟨hx, hxs⟩ := List.nodup_cons.mp hl
    simp only [tickPairs, countOcc_append]
    rw [countOcc_map_pair, countOcc_map_pair]
    by_cases hax : a = x
    · subst hax
      have hbxs : b ∈ xs := by
        rcases List.mem_cons.mp hb with rfl | h2
        · exact absurd rfl hab
        · exact h2
      rw [if_pos rfl, if_neg (fun h => hab h.symm)]
      have hc1 : countOcc b xs = 1 := countOcc_eq_one_of_mem hxs hbxs
      have hz1 : countOcc (a, b) (tickPairs xs) = 0 :=
        countOcc_eq_zero_of_not_mem fun hmem => hx (mem_tickPairs_fst_snd hmem).1
      have hz2 : countOcc (b, a) (tickPairs xs) = 0 :=
        countOcc_eq_zero_of_not_mem fun hmem => hx (mem_tickPairs_fst_snd hmem).2
      omega
    · by_cases hbx : b = x
      · subst hbx
        have haxs : a ∈ xs := by
          rcases List.mem_cons.mp ha with rfl | h2
          · exact absurd rfl hab
          · exact h2
        rw [if_neg hax, if_pos rfl]
        have hc1 : countOcc a xs = 1 := countOcc_eq_one_of_mem hxs haxs
        have hz1 : countOcc (a, b) (tickPairs xs) = 0 :=
          countOcc_eq_zero_of_not_mem fun hmem => hx (mem_tickPairs_fst_snd hmem).2
        have hz2 : countOcc (b, a) (tickPairs xs) = 0 :=
          countOcc_eq_zero_of_not_mem fun hmem => hx (mem_tickPairs_fst_snd hmem).1
        omega
      · rw [if_neg hax, if_neg hbx]
        have haxs : a ∈ xs := (List.mem_cons.mp ha).resolve_left hax
        have hbxs : b ∈ xs := (List.mem_cons.mp hb).resolve_left hbx
        have h := ih hxs haxs hbxs
        omega

/-- C4: over a snapshot of `n` entities with unique ids, the nested loop of
the evaluator visits exactly `n * (n - 1) / 2` pairs, never pairs an entity
with itself (the two ids of a visited pair always differ), visits each
unordered pair of distinct entities exactly once, and for a snapshot of `0`
or `1` entities visits no pairs and produces no alerts. -/
theorem tickConsidersAllPairsOnce (snap : Table ℚ)
    (dist : Position ℚ → Position ℚ → ℚ) (min_distance max_distance : ℚ)
    (hsnap : (tableKeys snap).Nodup) :
    (tickPairs snap).length = snap.length * (snap.length - 1) / 2 ∧
    (∀ p ∈ tickPairs snap, p.1.1 ≠ p.2.1) ∧
    (∀ a b, a ∈ snap → b ∈ snap → a ≠ b →
      countOcc (a, b) (tickPairs snap) + countOcc (b, a) (tickPairs snap) = 1) ∧
    (snap.length ≤ 1 →
      tickPairs snap = [] ∧ tickAlerts dist min_distance max_distance snap = []) := by
  have hmap : (snap.map Prod.fst).Nodup := hsnap
  refine ⟨length_tickPairs snap, ?_, ?_, ?_⟩
  · intro p hp
    exact map_ne_of_mem_tickPairs hmap hp
  · intro a b ha hb hab
    exact count_tickPairs_once (List.Nodup.of_map Prod.fst hmap) ha hb hab
  · intro hlen
    cases snap with
    | nil => exact ⟨rfl, rfl⟩
    | cons e t =>
      cases t with
      | nil => exact ⟨rfl, rfl⟩
      | cons e2 t2 =>
        exfalso
        simp only [List.length_cons] at hlen
        omega

/-- C4 (witness): over the three-entity snapshot `snapABC` the evaluator
visits `3 = 3·2/2` pairs, and the unordered pair `{a, b}` is visited exactly
once. -/
theorem tickConsidersAllPairsOnce_witness :
    (tickPairs snapABC).length = 3 ∧
    countOcc (("a", viA), ("b", viB)) (tickPairs snapABC)
      + countOcc (("b", viB), ("a", viA)) (tickPairs snapABC) = 1 := by
  have h := tickConsidersAllPairsOnce snapABC (fun _ _ => 0) 10 1000
    (by simp [snapABC, tableKeys])
  refine ⟨?_, h.2.2.1 ("a", viA) ("b", viB) (by simp [snapABC]) (by simp [snapABC])
    (by simp [viA, viB])⟩
  rw [h.1]
  rfl

/-- C5: the merge at the end of a tick keeps every entry the shared table
held at merge time (so a report ingested between snapshot detachment and the
merge is in the table when the tick concludes), keeps every snapshot entry
whose id the shared table does not hold, and lets the entry of the shared table
win for any id present in both. -/
theorem mergeLosesNoReport {α : Type} (snap shared : Table α)
    (h : (tableKeys shared).Nodup) (k : String) :
    (∀ v, alookup shared k = some v → alookup (tableMerge snap shared) k = some v) ∧
    (alookup shared k = none → alookup (tableMerge snap shared) k = alookup snap k) :=
  alookup_tableMerge snap shared h k

/-- C5 (witness): merging snapshot `{a ↦ viA, b ↦ viB}` with a shared table
repopulated to `{b ↦ viB2, c ↦ viC}` keeps the fresh report for `b`, keeps
entry `a` of the snapshot, and keeps the window report for `c`. -/
theorem mergeLosesNoReport_witness :
    alookup (tableMerge [("a", viA), ("b", viB)] [("b", viA2), ("c", viC)]) "b"
      = some viA2 ∧
    alookup (tableMerge [("a", viA), ("b", viB)] [("b", viA2), ("c", viC)]) "c"
      = some viC ∧
    alookup (tableMerge [("a", viA), ("b", viB)] [("b", viA2), ("c", viC)]) "a"
      = some viA := by
  refine ⟨(mergeLosesNoReport [("a", viA), ("b", viB)] [("b", viA2), ("c", viC)]
      (by simp [tableKeys]) "b").1 viA2 rfl,
    (mergeLosesNoReport [("a", viA), ("b", viB)] [("b", viA2), ("c", viC)]
      (by simp [tableKeys]) "c").1 viC rfl, ?_⟩
  rw [(mergeLosesNoReport [("a", viA), ("b", viB)] [("b", viA2), ("c", viC)]
      (by simp [tableKeys]) "a").2 rfl]
  rfl

/-- C6: a message whose payload fails to decode leaves the State Table
completely unchanged, the loop goes on to process the subsequent messages,
and in general a run of the ingest loop is the run over just its successfully
decoded reports. -/
theorem malformedIngestNoop {α : Type} (m : Table α) (err : String)
    (rest : List (Except String (VehicleInfo α))) :
    ingestStep m (Except.error err) = m ∧
    ingestAll m (Except.error err :: rest) = ingestAll m rest ∧
    ingestAll m rest = ingestReports m (rest.filterMap Except.toOption) :=
  ⟨rfl, rfl, ingestAll_eq_ingestReports rest m⟩

/-- C7: ingesting a decoded report stores it under its id — replacing, never
duplicating, an entry already present (same table size on replacement, one
more entry otherwise) — keys stay unique, and after any sequence of ingests
into an empty table the size is the number of distinct ids seen. -/
theorem ingestReplacesEntry {α : Type} (m : Table α) (v : VehicleInfo α)
    (vis : List (VehicleInfo α)) (hm : (tableKeys m).Nodup) :
    alookup (tableInsert v.id v m) v.id = some v ∧
    (tableKeys (tableInsert v.id v m)).Nodup ∧
    (v.id ∈ tableKeys m → (tableInsert v.id v m).length = m.length) ∧
    (v.id ∉ tableKeys m → (tableInsert v.id v m).length = m.length + 1) ∧
    (tableKeys (ingestReports ([] : Table α) vis)).Nodup ∧
    (ingestReports ([] : Table α) vis).length = (vis.map VehicleInfo.id).dedup.length :=
  ⟨alookup_tableInsert_self v.id v m, tableKeys_nodup_insert hm,
    fun h => length_tableInsert_of_mem h, fun h => length_tableInsert_of_not_mem h,
    tableKeys_nodup_ingestReports vis [] (by simp [tableKeys]),
    length_ingestReports_dedup vis⟩

/-- C7 (witness): re-ingesting id `a` into `{a ↦ viA}` replaces the entry and
keeps the size at `1`, and ingesting the sequence `[viA, viB, viA2]` (ids
`a`, `b`, `a`) from empty yields a table of size `2`. -/
theorem ingestReplacesEntry_witness :
    alookup (tableInsert viA2.id viA2 [("a", viA)]) viA2.id = some viA2 ∧
    (tableInsert viA2.id viA2 [("a", viA)]).length = 1 ∧
    (ingestReports ([] : Table ℚ) [viA, viB, viA2]).length = 2 := by
  have h := ingestReplacesEntry [("a", viA)] viA2 [viA, viB, viA2] (by simp [tableKeys])
  refine ⟨h.1, ?_, ?_⟩
  · rw [h.2.2.1 (by simp [viA2, tableKeys])]
    rfl
  · rw [h.2.2.2.2.2]
    rfl

/-- C10: every table entry is keyed by its own id: the invariant holds of the
empty table the evaluator swaps in, is preserved by the ingest step (which
inserts a decoded report under its own id field and ignores malformed input),
and is preserved by the merge (which copies entries under their existing
keys). -/
theorem tableKeyedBySelf {α : Type} (m snap shared : Table α)
    (msg : Except String (VehicleInfo α)) (hm : KeyedBySelf m)
    (hs : KeyedBySelf snap) (hc : KeyedBySelf shared) :
    KeyedBySelf (ingestStep m msg) ∧
    KeyedBySelf ([] : Table α) ∧
    KeyedBySelf (tableMerge snap shared) := by
  refine ⟨?_, keyedBySelf_nil, keyedBySelf_merge shared snap hs hc⟩
  cases msg with
  | ok vi => exact keyedBySelf_insert hm vi
  | error e => exact hm

/-- C10 (witness): the invariant concretely, for one ingest of `viB` into
`{a ↦ viA}` and one merge of snapshot `{a ↦ viA}` with shared `{b ↦ viB}`. -/
theorem tableKeyedBySelf_witness :
    KeyedBySelf (ingestStep [("a", viA)] (Except.ok viB)) ∧
    KeyedBySelf ([] : Table ℚ) ∧
    KeyedBySelf (tableMerge [("a", viA)] [("b", viB)]) := by
  have ha : KeyedBySelf [("a", viA)] := by
    intro e he
    rw [List.mem_singleton] at he
    subst he
    rfl
  have hb : KeyedBySelf [("b", viB)] := by
    intro e he
    rw [List.mem_singleton] at he
    subst he
    rfl
  exact tableKeyedBySelf [("a", viA)] [("a", viA)] [("b", viB)] (Except.ok viB) ha ha hb

end DistanceTracker
